import Mathlib

/-!
Verification of the file-manager command interpreter.

The program is a Node.js line-based shell.  This file gives a shallow
embedding of its path resolution and command-dispatch logic and proves the
spec's claims about it.  Paths are modelled as the program manipulates them
on a POSIX host: JS strings become Lean `String`s (lists of characters),
and the `path.posix` primitives (`normalize`, `join`, `dirname`, `basename`,
`isAbsolute`, `parse(..).root`) are translated segment-for-segment from the
Node implementation.
-/

/-- Character sequences; JS strings are modelled through `String.data`. -/
abbrev Chars := List Char

/-- JS `String.prototype.split(sep)` for a one-character separator:
consecutive separators yield empty pieces, `"".split(sep) = [""]`. -/
def splitOnC (sep : Char) : Chars → List Chars
  | [] => [[]]
  | c :: rest =>
    if c = sep then [] :: splitOnC sep rest
    else
      match splitOnC sep rest with
      | [] => [[c]]
      | s :: ss => (c :: s) :: ss

/-- JS `Array.prototype.join(sep)` for a one-character separator. -/
def joinOnC (sep : Char) : List Chars → Chars
  | [] => []
  | [s] => s
  | s :: rest => s ++ sep :: joinOnC sep rest

abbrev splitSlash (p : Chars) : List Chars := splitOnC '/' p

abbrev joinSlash (l : List Chars) : Chars := joinOnC '/' l

/-- `path.posix.isAbsolute`: nonempty and starting with a slash. -/
def isAbsoluteC : Chars → Bool
  | [] => false
  | c :: _ => c = '/'

/-- `path.parse(p).root` on POSIX: `"/"` for an absolute path, else `""`. -/
def parseRootC (p : Chars) : Chars := if isAbsoluteC p then ['/'] else []

/-- Whether the path ends with a separator (Node checks the last char). -/
def endsSlash : Chars → Bool
  | [] => false
  | [c] => c = '/'
  | _ :: rest => endsSlash rest

/-- The segment stack of Node's `normalizeString`: empty and `.` segments are
dropped, `..` pops a previous segment, and above-root `..` segments are kept
only when `allow` is set (relative paths). `acc` holds the stack reversed. -/
def normSegs (allow : Bool) : List Chars → List Chars → List Chars
  | acc, [] => acc.reverse
  | acc, seg :: rest =>
    if seg = [] ∨ seg = ['.'] then normSegs allow acc rest
    else if seg = ['.', '.'] then
      match acc with
      | [] => if allow then normSegs allow [['.', '.']] rest else normSegs allow [] rest
      | t :: pre =>
        if t = ['.', '.'] then
          if allow then normSegs allow (['.', '.'] :: t :: pre) rest
          else normSegs allow (t :: pre) rest
        else normSegs allow pre rest
    else normSegs allow (seg :: acc) rest

/-- `path.posix.normalize`, translated from Node: resolve `.`/`..`, collapse
repeated separators, keep a trailing separator, map `""` to `"."`.  The
absolute/relative split is hoisted to the top; `normSegs` receives
`allowAboveRoot = !isAbsolute` as in Node. -/
def normalizeC (p : Chars) : Chars :=
  if p = [] then ['.']
  else if isAbsoluteC p then
    (if joinSlash (normSegs false [] (splitSlash p)) = [] then ['/']
     else '/' :: (if endsSlash p then joinSlash (normSegs false [] (splitSlash p)) ++ ['/']
                  else joinSlash (normSegs false [] (splitSlash p))))
  else
    (if joinSlash (normSegs true [] (splitSlash p)) = [] then
       (if endsSlash p then ['.', '/'] else ['.'])
     else (if endsSlash p then joinSlash (normSegs true [] (splitSlash p)) ++ ['/']
           else joinSlash (normSegs true [] (splitSlash p))))

/-- `path.posix.join(a, b)` for two arguments: concatenate the nonempty
arguments with a separator and normalize; an empty join yields `"."`. -/
def joinC (a b : Chars) : Chars :=
  if a = [] then (if b = [] then ['.'] else normalizeC b)
  else if b = [] then normalizeC a
  else normalizeC (a ++ '/' :: b)

/-- The scan of Node's posix `dirname` done on the reversed tail of `p`
(index 0 is never examined): skip trailing separators, then drop the last
segment; what remains starts at the separator before that segment, so its
length is Node's `end` index. -/
def dirT2 (p : Chars) : Chars :=
  ((p.drop 1).reverse.dropWhile (fun c => c = '/')).dropWhile (fun c => c ≠ '/')

/-- `path.posix.dirname`, translated from Node's right-to-left scan. -/
def dirnameC (p : Chars) : Chars :=
  if p = [] then ['.']
  else if dirT2 p = [] then (if isAbsoluteC p then ['/'] else ['.'])
  else if isAbsoluteC p ∧ (dirT2 p).length = 1 then ['/', '/']
  else p.take (dirT2 p).length

/-- `path.posix.basename` (no extension argument): the last segment,
ignoring trailing separators. -/
def basenameC (p : Chars) : Chars :=
  (((p.reverse.dropWhile (fun c => c = '/')).takeWhile (fun c => c ≠ '/')).reverse)

/-- ASCII model of the whitespace JS `String.prototype.trim` strips. -/
def isJsWS (c : Char) : Bool := c = ' ' ∨ c = '\t' ∨ c = '\n' ∨ c = '\r'

/-- JS `String.prototype.trim` (ASCII whitespace model). -/
def trimC (p : Chars) : Chars := ((p.dropWhile isJsWS).reverse.dropWhile isJsWS).reverse

-- String-level wrappers used by the embedded program.

def ofChars (cs : Chars) : String := ⟨cs⟩

def pathNormalize (s : String) : String := ofChars (normalizeC s.data)

def pathJoin (a b : String) : String := ofChars (joinC a.data b.data)

def pathDirname (s : String) : String := ofChars (dirnameC s.data)

def pathBasename (s : String) : String := ofChars (basenameC s.data)

def pathIsAbsolute (s : String) : Bool := isAbsoluteC s.data

def parseRoot (s : String) : String := ofChars (parseRootC s.data)

/-- JS `String.prototype.startsWith`. -/
def strStartsWith (s pre : String) : Bool := pre.data.isPrefixOf s.data

def strTrim (s : String) : String := ofChars (trimC s.data)

/-! ## The embedded program

State and collaborators.  The mutable `cwd` is threaded explicitly; the
filesystem and host are oracles recording what each collaborator call would
answer.  Handlers return the lines they print (as abstract output events, one
per `console.log` call site), the collaborator capabilities they invoke, a
`hangs` flag (a handler whose awaited promise never settles), and the cwd
after the call.
-/

inductive Kind
  | file
  | dir
  | other
deriving DecidableEq, Repr

/-- Collaborator filesystem oracle.  `stat p = none` models `fs.stat`
throwing (e.g. `ENOENT`); the `..Ok` fields model success of the
corresponding capability invocation. -/
structure FS where
  stat : String → Option Kind
  readdir : String → Option (List (String × Kind))
  readOk : String → Bool
  pipeOk : String → String → Bool
  unpipeOk : String → String → Bool
  renameOk : String → String → Bool
  unlinkOk : String → Bool
  mkdirOk : String → Bool
  openOk : String → Bool
  contentOf : String → String
  digestOf : String → String

/-- Host facts used by the `os` command. -/
structure Host where
  eolIsLF : Bool
  cpus : List (String × Nat)
  homedir : String
  osUser : String
  arch : String

/-- Output events, one constructor per distinct `console.log` call site
(formatting of host facts is abstracted into the carried data). -/
inductive Out
  | cwdLine (p : String)
  | invalid
  | opFailed
  | entry (name : String) (isDir : Bool)
  | content (p : String)
  | blank
  | digest (d : String)
  | eol (lf : Bool)
  | cpuCount (n : Nat)
  | cpuLine (idx : Nat) (model : String) (speedMHz : Nat)
  | homedirOut (p : String)
  | osUserOut (u : String)
  | archOut (a : String)
  | farewell (u : String)
deriving DecidableEq, Repr

/-- Filesystem capability invocations, in order. -/
inductive Eff
  | statE (p : String)
  | readdirE (p : String)
  | readE (p : String)
  | writeE (p : String)
  | renameE (src dest : String)
  | unlinkE (p : String)
  | mkdirE (p : String)
  | openExclE (p : String)
deriving DecidableEq, Repr

/-- Result of one handler invocation. -/
structure HRes where
  out : List Out
  effs : List Eff
  hangs : Bool
  cwd2 : String
deriving DecidableEq, Repr

/-- The local `resolved` of `safeResolve`: normalize an absolute argument
as is, otherwise join it onto the cwd and normalize. -/
def resolvedRaw (cwd target : String) : String :=
  if pathIsAbsolute target then pathNormalize target
  else pathNormalize (pathJoin cwd target)

/-- `safeResolve`: resolve `target` against `cwd`, but clamp to the root of
the drive `cwd` is on when the result does not start with that root. -/
def safeResolve (cwd target : String) : String :=
  if !strStartsWith (resolvedRaw cwd target) (parseRoot cwd) then parseRoot cwd
  else resolvedRaw cwd target

/-- `goUp`: move to the parent directory unless already at the root of the
current drive. -/
def goUp (cwd : String) : String :=
  let parent := pathDirname cwd
  let rootOfCwd := parseRoot cwd
  if cwd = rootOfCwd then cwd else parent

/-- `changeDir`. -/
def changeDir (fs : FS) (cwd arg : String) : HRes :=
  if arg = "" then ⟨[Out.invalid], [], false, cwd⟩
  else
    let dest := safeResolve cwd arg
    match fs.stat dest with
    | none => ⟨[Out.opFailed], [Eff.statE dest], false, cwd⟩
    | some k =>
      if k ≠ Kind.dir then ⟨[Out.invalid], [Eff.statE dest], false, cwd⟩
      else if !strStartsWith dest (parseRoot cwd) then ⟨[], [Eff.statE dest], false, cwd⟩
      else ⟨[], [Eff.statE dest], false, dest⟩

/-- Codepoint comparison standing in for `localeCompare` in `listDir`. -/
def leChars : Chars → Chars → Bool
  | [], _ => true
  | _ :: _, [] => false
  | a :: as, b :: bs =>
    if a = b then leChars as bs else a.val ≤ b.val

def sortNames (l : List String) : List String :=
  l.mergeSort (fun a b => leChars a.data b.data)

/-- `listDir`: directories first, then files, each sorted and tagged. -/
def listDir (fs : FS) (cwd : String) : HRes :=
  match fs.readdir cwd with
  | none => ⟨[Out.opFailed], [Eff.readdirE cwd], false, cwd⟩
  | some items =>
    let dirs := sortNames ((items.filter (fun i => i.2 = Kind.dir)).map (fun i => i.1))
    let files := sortNames ((items.filter (fun i => i.2 = Kind.file)).map (fun i => i.1))
    ⟨(dirs.map fun d => Out.entry d true) ++ (files.map fun f => Out.entry f false),
      [Eff.readdirE cwd], false, cwd⟩

/-- `catFile`.  On a read-stream error the handler prints `Operation failed`
and destroys the stream, so the `end` event it awaits never fires: the
invocation hangs (`hangs = true`). -/
def catFile (fs : FS) (cwd arg : String) : HRes :=
  if arg = "" then ⟨[Out.invalid], [], false, cwd⟩
  else
    let target := safeResolve cwd arg
    match fs.stat target with
    | none => ⟨[Out.opFailed], [Eff.statE target], false, cwd⟩
    | some k =>
      if k ≠ Kind.file then ⟨[Out.invalid], [Eff.statE target], false, cwd⟩
      else if fs.readOk target then
        ⟨[Out.content (fs.contentOf target), Out.blank],
          [Eff.statE target, Eff.readE target], false, cwd⟩
      else
        ⟨[Out.opFailed], [Eff.statE target, Eff.readE target], true, cwd⟩

/-- Target of `addFile`: the raw argument joined onto the cwd (no
`safeResolve`). -/
def addFileTarget (cwd arg : String) : String := pathJoin cwd arg

/-- `addFile`: exclusive create (`wx`); every failure, including
already-exists, is rethrown and reported as `Operation failed`. -/
def addFile (fs : FS) (cwd arg : String) : HRes :=
  if arg = "" then ⟨[Out.invalid], [], false, cwd⟩
  else
    let target := addFileTarget cwd arg
    if fs.openOk target then ⟨[], [Eff.openExclE target], false, cwd⟩
    else ⟨[Out.opFailed], [Eff.openExclE target], false, cwd⟩

/-- Target of `makeDir`: the raw argument joined onto the cwd. -/
def makeDirTarget (cwd arg : String) : String := pathJoin cwd arg

/-- `makeDir`: non-recursive mkdir. -/
def makeDir (fs : FS) (cwd arg : String) : HRes :=
  if arg = "" then ⟨[Out.invalid], [], false, cwd⟩
  else
    let target := makeDirTarget cwd arg
    if fs.mkdirOk target then ⟨[], [Eff.mkdirE target], false, cwd⟩
    else ⟨[Out.opFailed], [Eff.mkdirE target], false, cwd⟩

/-- Resolved source of `renameFile`. -/
def renameSrc (cwd oldP : String) : String := safeResolve cwd oldP

/-- Destination of `renameFile`: the new name joined onto the source's
parent directory. -/
def renameDest (cwd oldP newName : String) : String :=
  pathJoin (pathDirname (renameSrc cwd oldP)) newName

/-- `renameFile`. -/
def renameFile (fs : FS) (cwd oldP newName : String) : HRes :=
  if oldP = "" ∨ newName = "" then ⟨[Out.invalid], [], false, cwd⟩
  else if fs.renameOk (renameSrc cwd oldP) (renameDest cwd oldP newName) then
    ⟨[], [Eff.renameE (renameSrc cwd oldP) (renameDest cwd oldP newName)], false, cwd⟩
  else
    ⟨[Out.opFailed], [Eff.renameE (renameSrc cwd oldP) (renameDest cwd oldP newName)],
      false, cwd⟩

/-- `copyFile`: src must be a file, dest an existing directory (a failing
dest stat is caught to `null`, hence `Invalid input`); then stream-copy. -/
def copyFile (fs : FS) (cwd srcArg destDirArg : String) : HRes :=
  if srcArg = "" ∨ destDirArg = "" then ⟨[Out.invalid], [], false, cwd⟩
  else
    let src := safeResolve cwd srcArg
    let destDir := safeResolve cwd destDirArg
    match fs.stat src with
    | none => ⟨[Out.opFailed], [Eff.statE src], false, cwd⟩
    | some k =>
      if k ≠ Kind.file then ⟨[Out.invalid], [Eff.statE src], false, cwd⟩
      else
        match fs.stat destDir with
        | none => ⟨[Out.invalid], [Eff.statE src, Eff.statE destDir], false, cwd⟩
        | some dk =>
          if dk ≠ Kind.dir then ⟨[Out.invalid], [Eff.statE src, Eff.statE destDir], false, cwd⟩
          else
            let destPath := pathJoin destDir (pathBasename src)
            if fs.pipeOk src destPath then
              ⟨[], [Eff.statE src, Eff.statE destDir, Eff.readE src, Eff.writeE destPath],
                false, cwd⟩
            else
              ⟨[Out.opFailed],
                [Eff.statE src, Eff.statE destDir, Eff.readE src, Eff.writeE destPath],
                false, cwd⟩

/-- `moveFile`: like copy, but tries an atomic rename first and falls back to
stream-copy followed by unlink of the source. -/
def moveFile (fs : FS) (cwd srcArg destDirArg : String) : HRes :=
  if srcArg = "" ∨ destDirArg = "" then ⟨[Out.invalid], [], false, cwd⟩
  else
    let src := safeResolve cwd srcArg
    let destDir := safeResolve cwd destDirArg
    match fs.stat src with
    | none => ⟨[Out.opFailed], [Eff.statE src], false, cwd⟩
    | some k =>
      if k ≠ Kind.file then ⟨[Out.invalid], [Eff.statE src], false, cwd⟩
      else
        match fs.stat destDir with
        | none => ⟨[Out.invalid], [Eff.statE src, Eff.statE destDir], false, cwd⟩
        | some dk =>
          if dk ≠ Kind.dir then ⟨[Out.invalid], [Eff.statE src, Eff.statE destDir], false, cwd⟩
          else
            let destPath := pathJoin destDir (pathBasename src)
            if fs.renameOk src destPath then
              ⟨[], [Eff.statE src, Eff.statE destDir, Eff.renameE src destPath], false, cwd⟩
            else if fs.pipeOk src destPath then
              if fs.unlinkOk src then
                ⟨[], [Eff.statE src, Eff.statE destDir, Eff.renameE src destPath,
                      Eff.readE src, Eff.writeE destPath, Eff.unlinkE src], false, cwd⟩
              else
                ⟨[Out.opFailed], [Eff.statE src, Eff.statE destDir, Eff.renameE src destPath,
                      Eff.readE src, Eff.writeE destPath, Eff.unlinkE src], false, cwd⟩
            else
              ⟨[Out.opFailed], [Eff.statE src, Eff.statE destDir, Eff.renameE src destPath,
                    Eff.readE src, Eff.writeE destPath], false, cwd⟩

/-- `removeFile`. -/
def removeFile (fs : FS) (cwd arg : String) : HRes :=
  if arg = "" then ⟨[Out.invalid], [], false, cwd⟩
  else
    let target := safeResolve cwd arg
    match fs.stat target with
    | none => ⟨[Out.opFailed], [Eff.statE target], false, cwd⟩
    | some k =>
      if k ≠ Kind.file then ⟨[Out.invalid], [Eff.statE target], false, cwd⟩
      else if fs.unlinkOk target then ⟨[], [Eff.statE target, Eff.unlinkE target], false, cwd⟩
      else ⟨[Out.opFailed], [Eff.statE target, Eff.unlinkE target], false, cwd⟩

/-- `hashFile`: streamed sha256 digest of a regular file. -/
def hashFile (fs : FS) (cwd arg : String) : HRes :=
  if arg = "" then ⟨[Out.invalid], [], false, cwd⟩
  else
    let target := safeResolve cwd arg
    match fs.stat target with
    | none => ⟨[Out.opFailed], [Eff.statE target], false, cwd⟩
    | some k =>
      if k ≠ Kind.file then ⟨[Out.invalid], [Eff.statE target], false, cwd⟩
      else if fs.readOk target then
        ⟨[Out.digest (fs.digestOf target)], [Eff.statE target, Eff.readE target], false, cwd⟩
      else ⟨[Out.opFailed], [Eff.statE target, Eff.readE target], false, cwd⟩

/-- `compressFile`: src must be a file and the destination's parent an
existing directory; then stream through the compression transform. -/
def compressFile (fs : FS) (cwd srcArg destArg : String) : HRes :=
  if srcArg = "" ∨ destArg = "" then ⟨[Out.invalid], [], false, cwd⟩
  else
    let src := safeResolve cwd srcArg
    let destPath := safeResolve cwd destArg
    match fs.stat src with
    | none => ⟨[Out.opFailed], [Eff.statE src], false, cwd⟩
    | some k =>
      if k ≠ Kind.file then ⟨[Out.invalid], [Eff.statE src], false, cwd⟩
      else
        let destDir := pathDirname destPath
        match fs.stat destDir with
        | none => ⟨[Out.invalid], [Eff.statE src, Eff.statE destDir], false, cwd⟩
        | some dk =>
          if dk ≠ Kind.dir then ⟨[Out.invalid], [Eff.statE src, Eff.statE destDir], false, cwd⟩
          else if fs.pipeOk src destPath then
            ⟨[], [Eff.statE src, Eff.statE destDir, Eff.readE src, Eff.writeE destPath],
              false, cwd⟩
          else
            ⟨[Out.opFailed],
              [Eff.statE src, Eff.statE destDir, Eff.readE src, Eff.writeE destPath],
              false, cwd⟩

/-- `decompressFile`: mirror of `compressFile` with the inverse transform
(whose pipeline success is a distinct oracle — e.g. it fails on input that is
not in the compressed format). -/
def decompressFile (fs : FS) (cwd srcArg destArg : String) : HRes :=
  if srcArg = "" ∨ destArg = "" then ⟨[Out.invalid], [], false, cwd⟩
  else
    let src := safeResolve cwd srcArg
    let destPath := safeResolve cwd destArg
    match fs.stat src with
    | none => ⟨[Out.opFailed], [Eff.statE src], false, cwd⟩
    | some k =>
      if k ≠ Kind.file then ⟨[Out.invalid], [Eff.statE src], false, cwd⟩
      else
        let destDir := pathDirname destPath
        match fs.stat destDir with
        | none => ⟨[Out.invalid], [Eff.statE src, Eff.statE destDir], false, cwd⟩
        | some dk =>
          if dk ≠ Kind.dir then ⟨[Out.invalid], [Eff.statE src, Eff.statE destDir], false, cwd⟩
          else if fs.unpipeOk src destPath then
            ⟨[], [Eff.statE src, Eff.statE destDir, Eff.readE src, Eff.writeE destPath],
              false, cwd⟩
          else
            ⟨[Out.opFailed],
              [Eff.statE src, Eff.statE destDir, Eff.readE src, Eff.writeE destPath],
              false, cwd⟩

/-- `osInfo`: print one host fact, or `Invalid input` for an unknown flag. -/
def osInfo (host : Host) (option : String) : List Out :=
  if option = "--EOL" then [Out.eol host.eolIsLF]
  else if option = "--cpus" then
    Out.cpuCount host.cpus.length ::
      (host.cpus.enum.map fun e => Out.cpuLine (e.1 + 1) e.2.1 e.2.2)
  else if option = "--homedir" then [Out.homedirOut host.homedir]
  else if option = "--username" then [Out.osUserOut host.osUser]
  else if option = "--architecture" then [Out.archOut host.arch]
  else [Out.invalid]

/-- Tokenization in `handleLine`: `trimmed.split(' ').filter(Boolean)`. -/
def tokenizeStr (s : String) : List String :=
  ((splitOnC ' ' s.data).filter (fun t => t ≠ [])).map ofChars

/-- `parts.slice(i).join(' ')`. -/
def joinSpace (xs : List String) : String :=
  ofChars (joinOnC ' ' (xs.map String.data))

/-- The dispatch switch of `handleLine`; `parts.headD ""` is the command
name `parts[0]`. -/
def dispatchCmd (fs : FS) (host : Host) (cwd : String) (parts : List String) : HRes :=
  if parts.headD "" = "up" then ⟨[], [], false, goUp cwd⟩
  else if parts.headD "" = "cd" then changeDir fs cwd (joinSpace (parts.drop 1))
  else if parts.headD "" = "ls" then listDir fs cwd
  else if parts.headD "" = "cat" then catFile fs cwd (joinSpace (parts.drop 1))
  else if parts.headD "" = "add" then addFile fs cwd (joinSpace (parts.drop 1))
  else if parts.headD "" = "mkdir" then makeDir fs cwd (joinSpace (parts.drop 1))
  else if parts.headD "" = "rn" then
    renameFile fs cwd (parts.getD 1 "") (joinSpace (parts.drop 2))
  else if parts.headD "" = "cp" then
    copyFile fs cwd (parts.getD 1 "") (joinSpace (parts.drop 2))
  else if parts.headD "" = "mv" then
    moveFile fs cwd (parts.getD 1 "") (joinSpace (parts.drop 2))
  else if parts.headD "" = "rm" then removeFile fs cwd (joinSpace (parts.drop 1))
  else if parts.headD "" = "os" then ⟨osInfo host (parts.getD 1 ""), [], false, cwd⟩
  else if parts.headD "" = "hash" then hashFile fs cwd (joinSpace (parts.drop 1))
  else if parts.headD "" = "compress" then
    compressFile fs cwd (parts.getD 1 "") (joinSpace (parts.drop 2))
  else if parts.headD "" = "decompress" then
    decompressFile fs cwd (parts.getD 1 "") (joinSpace (parts.drop 2))
  else ⟨[Out.invalid], [], false, cwd⟩

/-- Result of `handleLine` on one input line. -/
structure LineRes where
  out : List Out
  effs : List Eff
  hangs : Bool
  cwd2 : String
  exited : Bool
deriving DecidableEq, Repr

/-- `handleLine`: trim, discard empty lines, handle exit keywords, tokenize,
dispatch, and (in a `finally`) print the cwd line — unless the handler's
promise never settles, in which case the `finally` never runs. -/
def handleLine (fs : FS) (host : Host) (uname cwd line : String) : LineRes :=
  let trimmed := strTrim line
  if trimmed = "" then ⟨[], [], false, cwd, false⟩
  else if trimmed = ".exit" ∨ trimmed = "exit" then
    ⟨[Out.farewell uname], [], false, cwd, true⟩
  else
    let parts := tokenizeStr trimmed
    let r := dispatchCmd fs host cwd parts
    ⟨r.out ++ (if r.hangs then [] else [Out.cwdLine r.cwd2]), r.effs, r.hangs, r.cwd2, false⟩

/-- Number of cwd-report lines in an output trace. -/
def countCwd (l : List Out) : Nat :=
  (l.filter fun o => match o with | Out.cwdLine _ => true | _ => false).length

/-- PathResolver as worded in the spec (§4.1): normalize the argument
(joining it onto `cwd` first when it is relative), compute the boundary as
the filesystem root of the current `cwd`, and clamp the result to the
boundary itself when it does not start with the boundary. -/
def resolveSpec (rawArg cwd : String) : String :=
  let normalized := if pathIsAbsolute rawArg then pathNormalize rawArg
                    else pathNormalize (pathJoin cwd rawArg)
  let boundary := parseRoot cwd
  if strStartsWith normalized boundary then normalized else boundary

/-- A navigation operation: `up` or `cd <arg>`. -/
inductive NavOp
  | up
  | cd (arg : String)

/-- One navigation step of the session state. -/
def navStep (fs : FS) (cwd : String) : NavOp → String
  | NavOp.up => goUp cwd
  | NavOp.cd arg => (changeDir fs cwd arg).cwd2

/-- The cwd after every prefix of a navigation sequence (the filesystem may
change between steps, so each step carries its own oracle). -/
def runPrefixes (cwd : String) : List (FS × NavOp) → List String
  | [] => [cwd]
  | step :: rest => cwd :: runPrefixes (navStep step.1 cwd step.2) rest

-- Concrete fixtures used by witnesses and counterexamples.

/-- A filesystem on which every probe fails and nothing exists. -/
def fsEmpty : FS :=
  ⟨fun _ => none, fun _ => none, fun _ => false, fun _ _ => false, fun _ _ => false,
   fun _ _ => false, fun _ => false, fun _ => false, fun _ => false, fun _ => "",
   fun _ => ""⟩

/-- A filesystem with the directory `/home/u/sub` and the regular file
`/home/u/f.txt`; reads of `f.txt` fail at stream time. -/
def fsCdSub : FS :=
  ⟨fun p => if p = "/home/u/sub" then some Kind.dir
            else if p = "/home/u/f.txt" then some Kind.file else none,
   fun _ => none, fun _ => false, fun _ _ => false, fun _ _ => false, fun _ _ => false,
   fun _ => false, fun _ => false, fun _ => false, fun _ => "", fun _ => ""⟩

def host0 : Host := ⟨true, [], "/home/u", "u", "x64"⟩

/-- Concrete navigation sequence for the confinement witness. -/
def opsC1 : List (FS × NavOp) :=
  [(fsCdSub, NavOp.cd "sub"), (fsCdSub, NavOp.up), (fsCdSub, NavOp.up),
   (fsCdSub, NavOp.up), (fsCdSub, NavOp.up), (fsCdSub, NavOp.cd "../../../etc")]

/-- Segments kept by `normSegs` besides `..` handling. -/
def keepSeg (s : Chars) : Bool := decide (s ≠ [] ∧ s ≠ ['.'])

/-- A path segment that survives absolute normalization: nonempty, not a dot
segment, and separator-free. -/
def segClean (s : Chars) : Prop :=
  s ≠ [] ∧ s ≠ ['.'] ∧ s ≠ ['.', '.'] ∧ '/' ∉ s

/-! ## Sanity checks of the model

Checks of the path primitives against Node's `path.posix` behaviour and of
the interpreter model on small inputs. -/

example : pathNormalize "/a/b/.." = "/a" := by decide
example : pathNormalize "a/../../b" = "../b" := by decide
example : pathNormalize "/a/" = "/a/" := by decide
example : pathNormalize "//a" = "/a" := by decide
example : pathNormalize "" = "." := by decide
example : pathNormalize "./" = "./" := by decide
example : pathJoin "/home/u" "/tmp/x" = "/home/u/tmp/x" := by decide
example : pathJoin "/a" ".." = "/" := by decide
example : pathJoin "" "" = "." := by decide
example : pathDirname "/a/b" = "/a" := by decide
example : pathDirname "/a" = "/" := by decide
example : pathDirname "/" = "/" := by decide
example : pathDirname "a/b//c" = "a/b/" := by decide
example : pathDirname "//a" = "//" := by decide
example : pathDirname "a//" = "." := by decide
example : pathBasename "/a/b/" = "b" := by decide
example : pathBasename "/" = "" := by decide
example : strTrim "  cd x \t" = "cd x" := by decide
example : safeResolve "/home/u" "../../.." = "/" := by decide
example : safeResolve "/home/u" "sub" = "/home/u/sub" := by decide
example : (handleLine fsCdSub host0 "u" "/home/u" "cd sub").cwd2 = "/home/u/sub" := by decide
example : (handleLine fsCdSub host0 "u" "/home/u" "ls").out =
    [Out.opFailed, Out.cwdLine "/home/u"] := by decide
example : (handleLine fsCdSub host0 "u" "/home/u" "   ").out = [] := by decide
example : (handleLine fsCdSub host0 "u" "/home/u" ".exit").out = [Out.farewell "u"] := by decide
example : (handleLine fsCdSub host0 "u" "/home/u" "bogus x").out =
    [Out.invalid, Out.cwdLine "/home/u"] := by decide
example : tokenizeStr "cd   sub" = ["cd", "sub"] := by decide

/-! ## Lemmas about the split/join primitives -/

theorem splitOnC_ne_nil (sep : Char) (cs : Chars) : splitOnC sep cs ≠ [] := by
  induction cs with
  | nil => simp [splitOnC]
  | cons c rest ih =>
    rw [splitOnC]
    by_cases h : c = sep
    · simp [h]
    · rw [if_neg h]
      cases hs : splitOnC sep rest with
      | nil => exact absurd hs ih
      | cons s ss => simp

theorem splitOnC_cons_sep (sep : Char) (cs : Chars) :
    splitOnC sep (sep :: cs) = [] :: splitOnC sep cs := by
  rw [splitOnC, if_pos rfl]

theorem splitOnC_cons_ne (sep c : Char) (cs : Chars) (h : c ≠ sep)
    (s : Chars) (ss : List Chars) (hs : splitOnC sep cs = s :: ss) :
    splitOnC sep (c :: cs) = (c :: s) :: ss := by
  rw [splitOnC, if_neg h, hs]

theorem splitOnC_append (sep : Char) (u v : Chars) :
    splitOnC sep (u ++ sep :: v) = splitOnC sep u ++ splitOnC sep v := by
  induction u with
  | nil => rw [List.nil_append, splitOnC_cons_sep, splitOnC]; rfl
  | cons c u ih =>
    by_cases h : c = sep
    · subst h
      rw [List.cons_append, splitOnC_cons_sep, splitOnC_cons_sep, ih, List.cons_append]
    · cases hs : splitOnC sep u with
      | nil => exact absurd hs (splitOnC_ne_nil sep u)
      | cons s ss =>
        have h1 : splitOnC sep (u ++ sep :: v) = s :: (ss ++ splitOnC sep v) := by
          rw [ih, hs, List.cons_append]
        rw [List.cons_append, splitOnC_cons_ne sep c _ h _ _ h1,
            splitOnC_cons_ne sep c _ h _ _ hs, List.cons_append]

theorem splitOnC_no_sep (sep : Char) (cs : Chars) (h : sep ∉ cs) :
    splitOnC sep cs = [cs] := by
  induction cs with
  | nil => rfl
  | cons c rest ih =>
    have hc : c ≠ sep := fun hh => h (by rw [hh]; exact List.mem_cons_self _ _)
    have hr : sep ∉ rest := fun hh => h (List.mem_cons_of_mem c hh)
    exact splitOnC_cons_ne sep c rest hc rest [] (ih hr)

theorem joinOnC_cons (sep : Char) (s : Chars) (l : List Chars) (h : l ≠ []) :
    joinOnC sep (s :: l) = s ++ sep :: joinOnC sep l := by
  cases l with
  | nil => exact absurd rfl h
  | cons t ts => rfl

theorem splitOnC_joinOnC (sep : Char) (l : List Chars) (hl : l ≠ [])
    (h : ∀ s ∈ l, sep ∉ s) : splitOnC sep (joinOnC sep l) = l := by
  induction l with
  | nil => exact absurd rfl hl
  | cons s ss ih =>
    cases ss with
    | nil => exact splitOnC_no_sep sep s (h s (List.mem_cons_self _ _))
    | cons t ts =>
      rw [joinOnC_cons sep s (t :: ts) (by simp), splitOnC_append,
          splitOnC_no_sep sep s (h s (List.mem_cons_self _ _)),
          ih (by simp) (fun x hx => h x (List.mem_cons_of_mem s hx)), List.cons_append,
          List.nil_append]

theorem mem_splitOnC (sep : Char) (cs : Chars) : ∀ s ∈ splitOnC sep cs, sep ∉ s := by
  induction cs with
  | nil =>
    intro s hs
    rw [splitOnC] at hs
    rcases List.mem_singleton.mp hs with rfl
    exact List.not_mem_nil sep
  | cons c rest ih =>
    intro s hs
    by_cases h : c = sep
    · rw [h, splitOnC_cons_sep] at hs
      rcases List.mem_cons.mp hs with rfl | hmem
      · exact List.not_mem_nil sep
      · exact ih s hmem
    · cases hsp : splitOnC sep rest with
      | nil => exact absurd hsp (splitOnC_ne_nil sep rest)
      | cons t ts =>
        rw [splitOnC_cons_ne sep c rest h t ts hsp] at hs
        rcases List.mem_cons.mp hs with rfl | hmem
        · intro hh
          rcases List.mem_cons.mp hh with hh1 | hh2
          · exact h hh1.symm
          · exact ih t (hsp ▸ List.mem_cons_self _ _) hh2
        · exact ih s (hsp ▸ List.mem_cons_of_mem t hmem)

theorem joinOnC_ne_nil (sep : Char) (s : Chars) (l : List Chars) (hs : s ≠ []) :
    joinOnC sep (s :: l) ≠ [] := by
  cases l with
  | nil => exact hs
  | cons t ts => simp [joinOnC_cons sep s (t :: ts) (by simp), hs]

theorem endsSlash_cons (c : Char) (l : Chars) (h : l ≠ []) :
    endsSlash (c :: l) = endsSlash l := by
  cases l with
  | nil => exact absurd rfl h
  | cons d ds => rfl

theorem endsSlash_append (a b : Chars) (h : b ≠ []) :
    endsSlash (a ++ b) = endsSlash b := by
  induction a with
  | nil => rfl
  | cons c a ih =>
    rw [List.cons_append, endsSlash_cons c (a ++ b) (by simp [h]), ih]

theorem endsSlash_mem (l : Chars) (h : endsSlash l = true) : '/' ∈ l := by
  induction l with
  | nil => simp [endsSlash] at h
  | cons c rest ih =>
    cases hr : rest with
    | nil =>
      subst hr
      have : decide (c = '/') = true := h
      simp at this
      simp [this]
    | cons d ds =>
      rw [hr] at ih h
      rw [endsSlash_cons c (d :: ds) (by simp)] at h
      exact List.mem_cons_of_mem c (ih h)

theorem endsSlash_no_slash (l : Chars) (h : '/' ∉ l) : endsSlash l = false := by
  cases hE : endsSlash l with
  | false => rfl
  | true => exact absurd (endsSlash_mem l hE) h

/-! ## Lemmas about `normSegs` and `normalizeC` -/

theorem normSegs_nil (allow : Bool) (acc : List Chars) :
    normSegs allow acc [] = acc.reverse := rfl

theorem normSegs_cons (allow : Bool) (acc : List Chars) (seg : Chars) (rest : List Chars) :
    normSegs allow acc (seg :: rest) =
      (if seg = [] ∨ seg = ['.'] then normSegs allow acc rest
       else if seg = ['.', '.'] then
         match acc with
         | [] => if allow then normSegs allow [['.', '.']] rest else normSegs allow [] rest
         | t :: pre =>
           if t = ['.', '.'] then
             if allow then normSegs allow (['.', '.'] :: t :: pre) rest
             else normSegs allow (t :: pre) rest
           else normSegs allow pre rest
       else normSegs allow (seg :: acc) rest) := rfl

theorem normSegs_cons_skip (allow : Bool) (acc : List Chars) (seg : Chars)
    (rest : List Chars) (h : seg = [] ∨ seg = ['.']) :
    normSegs allow acc (seg :: rest) = normSegs allow acc rest := by
  rw [normSegs_cons, if_pos h]

theorem normSegs_cons_push (allow : Bool) (acc : List Chars) (seg : Chars)
    (rest : List Chars) (h1 : ¬(seg = [] ∨ seg = ['.'])) (h2 : seg ≠ ['.', '.']) :
    normSegs allow acc (seg :: rest) = normSegs allow (seg :: acc) rest := by
  rw [normSegs_cons, if_neg h1, if_neg h2]

theorem normSegs_false_dotdot_nil (rest : List Chars) :
    normSegs false [] (['.', '.'] :: rest) = normSegs false [] rest := rfl

theorem normSegs_false_dotdot_pop (t : Chars) (pre rest : List Chars)
    (ht : t ≠ ['.', '.']) :
    normSegs false (t :: pre) (['.', '.'] :: rest) = normSegs false pre rest := by
  have hred : normSegs false (t :: pre) (['.', '.'] :: rest) =
      (if t = ['.', '.'] then normSegs false (t :: pre) rest
       else normSegs false pre rest) := rfl
  rw [hred, if_neg ht]

theorem normSegs_no_dotdot (allow : Bool) (l : List Chars) (h : ['.', '.'] ∉ l) :
    ∀ acc, normSegs allow acc l = acc.reverse ++ l.filter keepSeg := by
  induction l with
  | nil => intro acc; simp [normSegs_nil]
  | cons seg rest ih =>
    intro acc
    have hseg : seg ≠ ['.', '.'] := fun hh => h (by rw [hh]; exact List.mem_cons_self _ _)
    have hrest : ['.', '.'] ∉ rest := fun hh => h (List.mem_cons_of_mem _ hh)
    rw [normSegs_cons]
    by_cases h1 : seg = [] ∨ seg = ['.']
    · rw [if_pos h1, ih hrest acc, List.filter_cons]
      have hk : keepSeg seg = false := by
        rcases h1 with h1 | h1 <;> simp [keepSeg, h1]
      rw [hk]
      simp
    · rw [if_neg h1, if_neg hseg, ih hrest (seg :: acc), List.filter_cons]
      have hk : keepSeg seg = true := by
        push_neg at h1
        simp [keepSeg, h1.1, h1.2]
      rw [hk]
      simp

theorem normSegs_false_clean (l : List Chars) (hl : ∀ s ∈ l, '/' ∉ s) :
    ∀ acc, (∀ s ∈ acc, segClean s) → ∀ s ∈ normSegs false acc l, segClean s := by
  induction l with
  | nil =>
    intro acc hacc s hs
    rw [normSegs_nil] at hs
    exact hacc s (List.mem_reverse.mp hs)
  | cons seg rest ih =>
    intro acc hacc s hs
    have hslash : '/' ∉ seg := hl seg (List.mem_cons_self _ _)
    have hrest : ∀ x ∈ rest, '/' ∉ x := fun x hx => hl x (List.mem_cons_of_mem _ hx)
    by_cases h1 : seg = [] ∨ seg = ['.']
    · rw [normSegs_cons_skip false acc seg rest h1] at hs
      exact ih hrest acc hacc s hs
    · by_cases h2 : seg = ['.', '.']
      · subst h2
        cases acc with
        | nil =>
          rw [normSegs_false_dotdot_nil rest] at hs
          exact ih hrest [] (by simp) s hs
        | cons t pre =>
          have ht : t ≠ ['.', '.'] := (hacc t (List.mem_cons_self _ _)).2.2.1
          rw [normSegs_false_dotdot_pop t pre rest ht] at hs
          exact ih hrest pre (fun x hx => hacc x (List.mem_cons_of_mem _ hx)) s hs
      · rw [normSegs_cons_push false acc seg rest h1 h2] at hs
        refine ih hrest (seg :: acc) ?_ s hs
        intro x hx
        rcases List.mem_cons.mp hx with rfl | hmem
        · exact ⟨fun hh => h1 (Or.inl hh), fun hh => h1 (Or.inr hh), h2, hslash⟩
        · exact hacc x hmem

theorem isAbs_exists (p : Chars) (h : isAbsoluteC p = true) : ∃ rest, p = '/' :: rest := by
  cases p with
  | nil => simp [isAbsoluteC] at h
  | cons c cs =>
    have hc : c = '/' := by simpa [isAbsoluteC] using h
    exact ⟨cs, by rw [hc]⟩

theorem normalizeC_of_abs (p : Chars) (h : isAbsoluteC p = true) :
    normalizeC p =
      (if joinSlash (normSegs false [] (splitSlash p)) = [] then ['/']
       else '/' :: (if endsSlash p then joinSlash (normSegs false [] (splitSlash p)) ++ ['/']
                    else joinSlash (normSegs false [] (splitSlash p)))) := by
  obtain ⟨rest, rfl⟩ := isAbs_exists p h
  rw [normalizeC, if_neg (by simp), if_pos h]

theorem segs_clean_abs (p : Chars) :
    ∀ s ∈ normSegs false [] (splitSlash p), segClean s :=
  normSegs_false_clean (splitSlash p) (mem_splitOnC '/' p) [] (by simp)

theorem joinSlash_clean_ne_nil (segs : List Chars) (hclean : ∀ s ∈ segs, segClean s)
    (hne : segs ≠ []) : joinSlash segs ≠ [] := by
  cases segs with
  | nil => exact absurd rfl hne
  | cons s ss => exact joinOnC_ne_nil '/' s ss (hclean s (List.mem_cons_self _ _)).1

theorem endsSlash_joinSlash (segs : List Chars) (hclean : ∀ s ∈ segs, segClean s) :
    endsSlash (joinSlash segs) = false := by
  induction segs with
  | nil => rfl
  | cons s ss ih =>
    cases ss with
    | nil => exact endsSlash_no_slash s (hclean s (List.mem_cons_self _ _)).2.2.2
    | cons t ts =>
      have hts : ∀ x ∈ t :: ts, segClean x := fun x hx => hclean x (List.mem_cons_of_mem _ hx)
      rw [joinSlash, joinOnC_cons '/' s (t :: ts) (by simp),
          endsSlash_append s ('/' :: joinOnC '/' (t :: ts)) (by simp),
          endsSlash_cons '/' (joinOnC '/' (t :: ts))
            (joinOnC_ne_nil '/' t ts (hts t (List.mem_cons_self _ _)).1)]
      exact ih hts

theorem filter_keepSeg_clean (segs : List Chars) (hclean : ∀ s ∈ segs, segClean s) :
    segs.filter keepSeg = segs := by
  apply List.filter_eq_self.mpr
  intro s hs
  have h := hclean s hs
  simp [keepSeg, h.1, h.2.1]

theorem dotdot_not_mem_clean (segs : List Chars) (hclean : ∀ s ∈ segs, segClean s) :
    ['.', '.'] ∉ segs := fun h => (hclean _ h).2.2.1 rfl

theorem slash_not_mem_clean (segs : List Chars) (hclean : ∀ s ∈ segs, segClean s) :
    ∀ s ∈ segs, '/' ∉ s := fun s hs => (hclean s hs).2.2.2

theorem normalizeC_fix_plain (segs : List Chars) (hclean : ∀ s ∈ segs, segClean s)
    (hne : segs ≠ []) : normalizeC ('/' :: joinSlash segs) = '/' :: joinSlash segs := by
  have hjne : joinSlash segs ≠ [] := joinSlash_clean_ne_nil segs hclean hne
  have hsplit : splitSlash ('/' :: joinSlash segs) = [] :: segs := by
    rw [splitSlash, splitOnC_cons_sep,
        splitOnC_joinOnC '/' segs hne (slash_not_mem_clean segs hclean)]
  have hsegs : normSegs false [] (splitSlash ('/' :: joinSlash segs)) = segs := by
    rw [hsplit, normSegs_no_dotdot false ([] :: segs)
        (by intro hh; rcases List.mem_cons.mp hh with hh | hh
            · exact absurd hh.symm (by simp)
            · exact dotdot_not_mem_clean segs hclean hh) [],
        List.filter_cons]
    have : keepSeg ([] : Chars) = false := by simp [keepSeg]
    rw [this]
    simp [filter_keepSeg_clean segs hclean]
  rw [normalizeC_of_abs ('/' :: joinSlash segs) (by simp [isAbsoluteC]), hsegs,
      if_neg hjne, endsSlash_cons '/' (joinSlash segs) hjne,
      endsSlash_joinSlash segs hclean]
  simp

theorem normalizeC_fix_trail (segs : List Chars) (hclean : ∀ s ∈ segs, segClean s)
    (hne : segs ≠ []) :
    normalizeC ('/' :: (joinSlash segs ++ ['/'])) = '/' :: (joinSlash segs ++ ['/']) := by
  have hjne : joinSlash segs ≠ [] := joinSlash_clean_ne_nil segs hclean hne
  have hsplit : splitSlash ('/' :: (joinSlash segs ++ ['/'])) = [] :: (segs ++ [[]]) := by
    rw [splitSlash, splitOnC_cons_sep]
    have : joinSlash segs ++ ['/'] = joinSlash segs ++ '/' :: [] := rfl
    rw [this, splitOnC_append,
        splitOnC_joinOnC '/' segs hne (slash_not_mem_clean segs hclean)]
    rfl
  have hsegs : normSegs false [] (splitSlash ('/' :: (joinSlash segs ++ ['/']))) = segs := by
    rw [hsplit, normSegs_no_dotdot false ([] :: (segs ++ [[]]))
        (by intro hh
            rcases List.mem_cons.mp hh with hh | hh
            · exact absurd hh.symm (by simp)
            · rcases List.mem_append.mp hh with hh | hh
              · exact dotdot_not_mem_clean segs hclean hh
              · rcases List.mem_singleton.mp hh with hh
                exact absurd hh (by simp)) [],
        List.filter_cons]
    have hk : keepSeg ([] : Chars) = false := by simp [keepSeg]
    rw [hk]
    simp [List.filter_append, hk, filter_keepSeg_clean segs hclean]
  have hends : endsSlash ('/' :: (joinSlash segs ++ ['/'])) = true := by
    rw [endsSlash_cons '/' (joinSlash segs ++ ['/']) (by simp),
        endsSlash_append (joinSlash segs) ['/'] (by simp)]
    rfl
  rw [normalizeC_of_abs ('/' :: (joinSlash segs ++ ['/'])) (by simp [isAbsoluteC]), hsegs,
      if_neg hjne, hends]
  simp

theorem normalizeC_idem_abs (p : Chars) (h : isAbsoluteC p = true) :
    normalizeC (normalizeC p) = normalizeC p := by
  rw [normalizeC_of_abs p h]
  by_cases hb : joinSlash (normSegs false [] (splitSlash p)) = []
  · rw [if_pos hb]
    decide
  · rw [if_neg hb]
    have hclean := segs_clean_abs p
    have hne : normSegs false [] (splitSlash p) ≠ [] := by
      intro hh
      rw [hh] at hb
      exact hb rfl
    by_cases ht : endsSlash p
    · rw [if_pos ht]
      exact normalizeC_fix_trail _ hclean hne
    · rw [if_neg ht]
      exact normalizeC_fix_plain _ hclean hne

theorem normalizeC_abs_abs (p : Chars) (h : isAbsoluteC p = true) :
    isAbsoluteC (normalizeC p) = true := by
  rw [normalizeC_of_abs p h]
  by_cases hb : joinSlash (normSegs false [] (splitSlash p)) = []
  · rw [if_pos hb]; rfl
  · rw [if_neg hb]; rfl

/-! ## String-level bridge lemmas -/

theorem str_ext (a b : String) (h : a.data = b.data) : a = b := by
  cases a; cases b; exact congrArg String.mk h

theorem isPrefixOf_refl (l : Chars) : l.isPrefixOf l = true := by
  induction l with
  | nil => rfl
  | cons c cs ih => simp [List.isPrefixOf, ih]

theorem strStartsWith_refl (s : String) : strStartsWith s s = true :=
  isPrefixOf_refl s.data

theorem strStartsWith_slash (s : String) : strStartsWith s "/" = pathIsAbsolute s := by
  rw [strStartsWith, pathIsAbsolute]
  cases hd : s.data with
  | nil => rfl
  | cons c cs =>
    by_cases hc : c = '/'
    · subst hc; simp [List.isPrefixOf, isAbsoluteC]
    · simp [List.isPrefixOf, isAbsoluteC, hc, Ne.symm hc]

theorem parseRoot_abs (s : String) (h : pathIsAbsolute s = true) : parseRoot s = "/" := by
  have h2 : isAbsoluteC s.data = true := h
  rw [parseRoot, parseRootC, if_pos h2]
  rfl

/-! ## `safeResolve` structure -/

theorem resolvedRaw_normalize (cwd target : String) (h : pathIsAbsolute cwd = true) :
    ∃ y : Chars, isAbsoluteC y = true ∧ (resolvedRaw cwd target).data = normalizeC y := by
  rw [resolvedRaw]
  by_cases ht : pathIsAbsolute target = true
  · exact ⟨target.data, ht, by rw [if_pos ht]; rfl⟩
  · rw [if_neg ht]
    obtain ⟨rest, hrest⟩ := isAbs_exists cwd.data h
    refine ⟨joinC cwd.data target.data, ?_, rfl⟩
    rw [joinC]
    have ha : cwd.data ≠ [] := by rw [hrest]; simp
    rw [if_neg ha]
    by_cases hb : target.data = []
    · rw [if_pos hb]
      exact normalizeC_abs_abs cwd.data (by rw [hrest]; simp [isAbsoluteC])
    · rw [if_neg hb]
      exact normalizeC_abs_abs (cwd.data ++ '/' :: target.data)
        (by rw [hrest]; simp [isAbsoluteC])

theorem resolvedRaw_abs (cwd target : String) (h : pathIsAbsolute cwd = true) :
    pathIsAbsolute (resolvedRaw cwd target) = true := by
  obtain ⟨y, hy, hdata⟩ := resolvedRaw_normalize cwd target h
  rw [pathIsAbsolute, hdata]
  exact normalizeC_abs_abs y hy

theorem safeResolve_no_clamp (cwd target : String) (h : pathIsAbsolute cwd = true) :
    safeResolve cwd target = resolvedRaw cwd target := by
  have hs : strStartsWith (resolvedRaw cwd target) (parseRoot cwd) = true := by
    rw [parseRoot_abs cwd h, strStartsWith_slash]
    exact resolvedRaw_abs cwd target h
  rw [safeResolve, hs]
  rfl

theorem safeResolve_normalize (cwd target : String) (h : pathIsAbsolute cwd = true) :
    ∃ y : Chars, isAbsoluteC y = true ∧ (safeResolve cwd target).data = normalizeC y := by
  rw [safeResolve_no_clamp cwd target h]
  exact resolvedRaw_normalize cwd target h

theorem safeResolve_abs (cwd target : String) (h : pathIsAbsolute cwd = true) :
    pathIsAbsolute (safeResolve cwd target) = true := by
  rw [safeResolve_no_clamp cwd target h]
  exact resolvedRaw_abs cwd target h

/-! ## Absoluteness is preserved by navigation -/

theorem dirnameC_abs (p : Chars) (h : isAbsoluteC p = true) :
    isAbsoluteC (dirnameC p) = true := by
  obtain ⟨rest, rfl⟩ := isAbs_exists p h
  rw [dirnameC, if_neg (by simp : ¬('/' :: rest : Chars) = [])]
  by_cases h2 : dirT2 ('/' :: rest) = []
  · rw [if_pos h2, if_pos h]
    rfl
  · rw [if_neg h2]
    by_cases h3 : isAbsoluteC ('/' :: rest) = true ∧ (dirT2 ('/' :: rest)).length = 1
    · rw [if_pos h3]; rfl
    · rw [if_neg h3]
      cases hl : (dirT2 ('/' :: rest)).length with
      | zero => exact absurd (List.length_eq_zero.mp hl) h2
      | succ n => simp [List.take_succ_cons, isAbsoluteC]

theorem pathDirname_abs (s : String) (h : pathIsAbsolute s = true) :
    pathIsAbsolute (pathDirname s) = true := dirnameC_abs s.data h

theorem goUp_abs (cwd : String) (h : pathIsAbsolute cwd = true) :
    pathIsAbsolute (goUp cwd) = true := by
  simp only [goUp]
  by_cases he : cwd = parseRoot cwd
  · rw [if_pos he]; exact h
  · rw [if_neg he]; exact pathDirname_abs cwd h

theorem changeDir_cwd2 (fs : FS) (cwd arg : String) :
    (changeDir fs cwd arg).cwd2 = cwd ∨
      ((changeDir fs cwd arg).cwd2 = safeResolve cwd arg ∧
        strStartsWith (safeResolve cwd arg) (parseRoot cwd) = true) := by
  by_cases h1 : arg = ""
  · left; simp [changeDir, h1]
  · cases hstat : fs.stat (safeResolve cwd arg) with
    | none => left; simp [changeDir, h1, hstat]
    | some k =>
      by_cases hk : k = Kind.dir
      · subst hk
        by_cases hs : strStartsWith (safeResolve cwd arg) (parseRoot cwd) = true
        · right
          refine ⟨?_, hs⟩
          simp [changeDir, h1, hstat, hs]
        · left
          simp [changeDir, h1, hstat, Bool.not_eq_true _ ▸ hs]
      · left; simp [changeDir, h1, hstat, hk]

theorem navStep_abs (fs : FS) (cwd : String) (op : NavOp) (h : pathIsAbsolute cwd = true) :
    pathIsAbsolute (navStep fs cwd op) = true := by
  cases op with
  | up => exact goUp_abs cwd h
  | cd arg =>
    show pathIsAbsolute (changeDir fs cwd arg).cwd2 = true
    rcases changeDir_cwd2 fs cwd arg with hc | ⟨hc, hs⟩
    · rw [hc]; exact h
    · rw [hc]
      rw [parseRoot_abs cwd h, strStartsWith_slash] at hs
      exact hs

/-! ## `dirname` and `join` on normalized absolute paths -/

theorem dropWhile_cons_false (p : Char → Bool) (x : Char) (xs : Chars) (h : p x = false) :
    (x :: xs).dropWhile p = x :: xs := by
  simp [List.dropWhile_cons, h]

theorem dropWhile_append_true (p : Char → Bool) (a b : Chars) (h : ∀ x ∈ a, p x = true) :
    (a ++ b).dropWhile p = b.dropWhile p := by
  induction a with
  | nil => rfl
  | cons x xs ih =>
    rw [List.cons_append, List.dropWhile_cons, if_pos (h x (List.mem_cons_self _ _)),
        ih (fun y hy => h y (List.mem_cons_of_mem _ hy))]

theorem dropSlash_noslash_front (s x : Chars) (hs : s ≠ []) (hn : '/' ∉ s) :
    (s.reverse ++ x).dropWhile (fun c => c = '/') = s.reverse ++ x := by
  cases hr : s.reverse with
  | nil => exact absurd (by simpa using hr) hs
  | cons c cs =>
    have hc : c ∈ s := List.mem_reverse.mp (by rw [hr]; exact List.mem_cons_self _ _)
    have hcf : (fun c => decide (c = '/')) c = false := by
      simp only [decide_eq_false_iff_not]
      exact fun hh => hn (hh ▸ hc)
    rw [List.cons_append, dropWhile_cons_false _ c _ hcf]

theorem dropNe_noslash_front (s x : Chars) (hn : '/' ∉ s) :
    (s ++ x).dropWhile (fun c => c ≠ '/') = x.dropWhile (fun c => c ≠ '/') := by
  apply dropWhile_append_true
  intro y hy
  simp only [ne_eq, decide_not, Bool.not_eq_true', decide_eq_false_iff_not]
  exact fun hh => hn (hh ▸ hy)

theorem joinOnC_concat (sep : Char) (x : Chars) (l : List Chars) :
    joinOnC sep (l ++ [x]) = if l = [] then x else joinOnC sep l ++ sep :: x := by
  induction l with
  | nil => rfl
  | cons s ss ih =>
    rw [if_neg (by simp : ¬(s :: ss : List Chars) = [])]
    cases ss with
    | nil => rfl
    | cons t ts =>
      rw [List.cons_append, joinOnC_cons sep s ((t :: ts) ++ [x]) (by simp), ih,
          if_neg (by simp), joinOnC_cons sep s (t :: ts) (by simp), List.append_assoc,
          List.cons_append]

theorem dirT2_absOf (init : List Chars) (lastSeg tail : Chars)
    (hlast_ne : lastSeg ≠ []) (hlast_ns : '/' ∉ lastSeg)
    (hinit : ∀ s ∈ init, segClean s)
    (htail : tail = [] ∨ tail = ['/']) :
    dirT2 ('/' :: (joinSlash (init ++ [lastSeg]) ++ tail)) =
      if init = [] then [] else '/' :: (joinSlash init).reverse := by
  have hlast_rev_ns : '/' ∉ lastSeg.reverse := fun hh => hlast_ns (List.mem_reverse.mp hh)
  have htail_rev : ∀ x, tail.reverse ++ x = tail ++ x := by
    intro x
    rcases htail with rfl | rfl <;> rfl
  have htail_drop : ∀ x : Chars,
      (tail ++ x).dropWhile (fun c => c = '/') = x.dropWhile (fun c => c = '/') := by
    intro x
    apply dropWhile_append_true
    intro y hy
    rcases htail with rfl | rfl
    · simp at hy
    · rcases List.mem_singleton.mp hy with rfl
      simp
  by_cases hi : init = []
  · subst hi
    rw [if_pos rfl, dirT2]
    simp only [List.nil_append, List.drop_one, List.tail_cons]
    have h1 : joinSlash [lastSeg] = lastSeg := rfl
    rw [h1, List.reverse_append, htail_rev, htail_drop,
        show lastSeg.reverse = lastSeg.reverse ++ [] by simp,
        dropSlash_noslash_front lastSeg [] hlast_ne hlast_ns]
    simp only [List.append_nil]
    rw [show lastSeg.reverse = lastSeg.reverse ++ [] by simp,
        dropNe_noslash_front lastSeg.reverse [] hlast_rev_ns]
    rfl
  · rw [if_neg hi, dirT2]
    simp only [List.drop_one, List.tail_cons]
    have h1 : joinSlash (init ++ [lastSeg]) = joinSlash init ++ '/' :: lastSeg := by
      rw [joinSlash, joinOnC_concat '/' lastSeg init, if_neg hi]
    rw [h1]
    have h2 : (joinSlash init ++ '/' :: lastSeg) ++ tail =
        joinSlash init ++ '/' :: (lastSeg ++ tail) := by
      rw [List.append_assoc, List.cons_append]
    rw [h2, List.reverse_append, List.reverse_cons, List.reverse_append]
    have h3 : (tail.reverse ++ lastSeg.reverse) ++ ['/'] ++ (joinSlash init).reverse =
        tail ++ (lastSeg.reverse ++ ('/' :: (joinSlash init).reverse)) := by
      rw [← htail_rev]
      simp [List.append_assoc]
    rw [h3, htail_drop,
        dropSlash_noslash_front lastSeg ('/' :: (joinSlash init).reverse) hlast_ne hlast_ns,
        dropNe_noslash_front lastSeg.reverse ('/' :: (joinSlash init).reverse) hlast_rev_ns,
        dropWhile_cons_false _ '/' ((joinSlash init).reverse) (by simp)]

theorem dirnameC_absOf (init : List Chars) (lastSeg tail : Chars)
    (hlast : segClean lastSeg) (hinit : ∀ s ∈ init, segClean s)
    (htail : tail = [] ∨ tail = ['/']) :
    dirnameC ('/' :: (joinSlash (init ++ [lastSeg]) ++ tail)) = '/' :: joinSlash init := by
  have ht2 := dirT2_absOf init lastSeg tail hlast.1 hlast.2.2.2 hinit htail
  rw [dirnameC, if_neg (by simp), ht2]
  by_cases hi : init = []
  · rw [if_pos hi, if_pos rfl, if_pos (by rfl : isAbsoluteC ('/' :: _) = true)]
    subst hi
    rfl
  · have hjne : joinSlash init ≠ [] := joinSlash_clean_ne_nil init hinit hi
    have hlen : ('/' :: (joinSlash init).reverse).length = (joinSlash init).length + 1 := by
      simp
    rw [if_neg hi, if_neg (by simp), if_neg ?hlen1]
    case hlen1 =>
      intro hand
      rw [hlen] at hand
      have := hand.2
      have : (joinSlash init).length = 0 := by omega
      exact hjne (List.length_eq_zero.mp this)
    rw [hlen]
    have h1 : joinSlash (init ++ [lastSeg]) ++ tail =
        joinSlash init ++ ('/' :: lastSeg ++ tail) := by
      rw [joinSlash, joinOnC_concat '/' lastSeg init, if_neg hi, List.append_assoc,
          List.cons_append]
    rw [h1, List.take_succ_cons, List.take_left]

theorem normalizeC_abs_form (y : Chars) (h : isAbsoluteC y = true) :
    normalizeC y = ['/'] ∨
      ∃ segs : List Chars, segs ≠ [] ∧ (∀ s ∈ segs, segClean s) ∧
        (normalizeC y = '/' :: joinSlash segs ∨
         normalizeC y = '/' :: (joinSlash segs ++ ['/'])) := by
  rw [normalizeC_of_abs y h]
  by_cases hb : joinSlash (normSegs false [] (splitSlash y)) = []
  · left; rw [if_pos hb]
  · right
    refine ⟨normSegs false [] (splitSlash y), ?_, segs_clean_abs y, ?_⟩
    · intro hh; rw [hh] at hb; exact hb rfl
    · rw [if_neg hb]
      by_cases ht : endsSlash y
      · right; rw [if_pos ht]
      · left; rw [if_neg ht]

theorem dirnameC_normalized (y : Chars) (h : isAbsoluteC y = true) :
    ∃ dsegs : List Chars, (∀ s ∈ dsegs, segClean s) ∧
      dirnameC (normalizeC y) = '/' :: joinSlash dsegs := by
  rcases normalizeC_abs_form y h with hf | ⟨segs, hne, hclean, hf⟩
  · exact ⟨[], by simp, by rw [hf]; decide⟩
  · rcases segs.eq_nil_or_concat with rfl | ⟨init, lastSeg, hconcat⟩
    · exact absurd rfl hne
    · rw [List.concat_eq_append] at hconcat
      subst hconcat
      have hinit : ∀ s ∈ init, segClean s :=
        fun s hs => hclean s (List.mem_append.mpr (Or.inl hs))
      have hlast : segClean lastSeg :=
        hclean lastSeg (List.mem_append.mpr (Or.inr (List.mem_singleton.mpr rfl)))
      refine ⟨init, hinit, ?_⟩
      rcases hf with hf | hf
      · rw [hf, show ('/' :: joinSlash (init ++ [lastSeg]) : Chars) =
            '/' :: (joinSlash (init ++ [lastSeg]) ++ []) by simp]
        exact dirnameC_absOf init lastSeg [] hlast hinit (Or.inl rfl)
      · rw [hf]
        exact dirnameC_absOf init lastSeg ['/'] hlast hinit (Or.inr rfl)

theorem joinC_child (dsegs : List Chars) (hclean : ∀ s ∈ dsegs, segClean s)
    (nm : Chars) (hnm : segClean nm) :
    joinC ('/' :: joinSlash dsegs) nm = '/' :: joinSlash (dsegs ++ [nm]) := by
  rw [joinC, if_neg (by simp), if_neg hnm.1]
  have harg : ('/' :: joinSlash dsegs) ++ '/' :: nm =
      '/' :: (joinSlash dsegs ++ '/' :: nm) := rfl
  rw [harg]
  have hccat : ∀ s ∈ dsegs ++ [nm], segClean s := by
    intro s hs
    rcases List.mem_append.mp hs with hs | hs
    · exact hclean s hs
    · rcases List.mem_singleton.mp hs with rfl
      exact hnm
  have hnm_ne : nm ≠ [] := hnm.1
  have hsplit : splitSlash ('/' :: (joinSlash dsegs ++ '/' :: nm)) =
      [] :: (splitOnC '/' (joinSlash dsegs) ++ [nm]) := by
    rw [splitSlash, splitOnC_cons_sep, splitOnC_append, splitOnC_no_sep '/' nm hnm.2.2.2]
  have hsegs : normSegs false [] (splitSlash ('/' :: (joinSlash dsegs ++ '/' :: nm))) =
      dsegs ++ [nm] := by
    rw [hsplit]
    by_cases hd : dsegs = []
    · subst hd
      rw [show splitOnC '/' (joinSlash ([] : List Chars)) = [[]] from rfl,
          normSegs_no_dotdot false _ ?hnodot []]
      case hnodot =>
        intro hh
        rcases List.mem_cons.mp hh with hh | hh
        · exact absurd hh.symm (by simp)
        · rcases List.mem_append.mp hh with hh | hh
          · rcases List.mem_singleton.mp hh with hh
            exact absurd hh.symm (by simp)
          · rcases List.mem_singleton.mp hh with hh
            exact hnm.2.2.1 hh.symm
      have hk : keepSeg ([] : Chars) = false := by simp [keepSeg]
      have hkn : keepSeg nm = true := by simp [keepSeg, hnm.1, hnm.2.1]
      simp [List.filter_cons, List.filter_append, hk, hkn]
    · rw [splitOnC_joinOnC '/' dsegs hd (slash_not_mem_clean dsegs hclean),
          normSegs_no_dotdot false _ ?hnodot2 []]
      case hnodot2 =>
        intro hh
        rcases List.mem_cons.mp hh with hh | hh
        · exact absurd hh.symm (by simp)
        · exact dotdot_not_mem_clean (dsegs ++ [nm]) hccat hh
      have hk : keepSeg ([] : Chars) = false := by simp [keepSeg]
      simp [List.filter_cons, hk, filter_keepSeg_clean (dsegs ++ [nm]) hccat]
  have hends : endsSlash ('/' :: (joinSlash dsegs ++ '/' :: nm)) = false := by
    rw [endsSlash_cons '/' (joinSlash dsegs ++ '/' :: nm) (by simp),
        endsSlash_append (joinSlash dsegs) ('/' :: nm) (by simp),
        endsSlash_cons '/' nm hnm_ne]
    exact endsSlash_no_slash nm hnm.2.2.2
  have hjne : joinSlash (dsegs ++ [nm]) ≠ [] :=
    joinSlash_clean_ne_nil (dsegs ++ [nm]) hccat (by simp)
  rw [normalizeC_of_abs ('/' :: (joinSlash dsegs ++ '/' :: nm)) (by simp [isAbsoluteC]),
      hsegs, if_neg hjne, hends]
  simp

theorem absOf_concat_ne (dsegs : List Chars) (nm : Chars) (hnm : nm ≠ []) :
    ('/' :: joinSlash (dsegs ++ [nm]) : Chars) ≠ '/' :: joinSlash dsegs := by
  intro h
  have hlen := congrArg List.length h
  rw [joinSlash, joinOnC_concat '/' nm dsegs] at hlen
  by_cases hd : dsegs = []
  · rw [if_pos hd, hd] at hlen
    simp [joinOnC] at hlen
    exact hnm hlen
  · rw [if_neg hd] at hlen
    simp [List.length_append] at hlen

theorem data_ne_nil (s : String) (h : s ≠ "") : s.data ≠ [] :=
  fun hh => h (str_ext s "" hh)

theorem strData_append (a b : String) : (a ++ b).data = a.data ++ b.data := by
  cases a; cases b; rfl

/-! ## Handlers never write the cwd -/

theorem listDir_cwd2 (fs : FS) (cwd : String) : (listDir fs cwd).cwd2 = cwd := by
  simp only [listDir]
  repeat' split
  all_goals rfl

theorem catFile_cwd2 (fs : FS) (cwd arg : String) : (catFile fs cwd arg).cwd2 = cwd := by
  simp only [catFile]
  repeat' split
  all_goals rfl

theorem addFile_cwd2 (fs : FS) (cwd arg : String) : (addFile fs cwd arg).cwd2 = cwd := by
  simp only [addFile]
  repeat' split
  all_goals rfl

theorem makeDir_cwd2 (fs : FS) (cwd arg : String) : (makeDir fs cwd arg).cwd2 = cwd := by
  simp only [makeDir]
  repeat' split
  all_goals rfl

theorem renameFile_cwd2 (fs : FS) (cwd oldP newName : String) :
    (renameFile fs cwd oldP newName).cwd2 = cwd := by
  simp only [renameFile]
  repeat' split
  all_goals rfl

theorem copyFile_cwd2 (fs : FS) (cwd a b : String) : (copyFile fs cwd a b).cwd2 = cwd := by
  simp only [copyFile]
  repeat' split
  all_goals rfl

theorem moveFile_cwd2 (fs : FS) (cwd a b : String) : (moveFile fs cwd a b).cwd2 = cwd := by
  simp only [moveFile]
  repeat' split
  all_goals rfl

theorem removeFile_cwd2 (fs : FS) (cwd arg : String) :
    (removeFile fs cwd arg).cwd2 = cwd := by
  simp only [removeFile]
  repeat' split
  all_goals rfl

theorem hashFile_cwd2 (fs : FS) (cwd arg : String) : (hashFile fs cwd arg).cwd2 = cwd := by
  simp only [hashFile]
  repeat' split
  all_goals rfl

theorem compressFile_cwd2 (fs : FS) (cwd a b : String) :
    (compressFile fs cwd a b).cwd2 = cwd := by
  simp only [compressFile]
  repeat' split
  all_goals rfl

theorem decompressFile_cwd2 (fs : FS) (cwd a b : String) :
    (decompressFile fs cwd a b).cwd2 = cwd := by
  simp only [decompressFile]
  repeat' split
  all_goals rfl

theorem dispatchCmd_cwd2_frame (fs : FS) (host : Host) (cwd : String) (parts : List String)
    (hcmd : parts.headD "" ∉ (["up", "cd"] : List String)) :
    (dispatchCmd fs host cwd parts).cwd2 = cwd := by
  have hup : ¬ parts.headD "" = "up" :=
    fun hh => hcmd (by rw [hh]; exact List.mem_cons_self _ _)
  have hcd : ¬ parts.headD "" = "cd" :=
    fun hh => hcmd (by rw [hh]; exact List.mem_cons_of_mem _ (List.mem_cons_self _ _))
  rw [dispatchCmd, if_neg hup, if_neg hcd]
  by_cases h3 : parts.headD "" = "ls"
  · rw [if_pos h3]; apply listDir_cwd2
  rw [if_neg h3]
  by_cases h4 : parts.headD "" = "cat"
  · rw [if_pos h4]; apply catFile_cwd2
  rw [if_neg h4]
  by_cases h5 : parts.headD "" = "add"
  · rw [if_pos h5]; apply addFile_cwd2
  rw [if_neg h5]
  by_cases h6 : parts.headD "" = "mkdir"
  · rw [if_pos h6]; apply makeDir_cwd2
  rw [if_neg h6]
  by_cases h7 : parts.headD "" = "rn"
  · rw [if_pos h7]; apply renameFile_cwd2
  rw [if_neg h7]
  by_cases h8 : parts.headD "" = "cp"
  · rw [if_pos h8]; apply copyFile_cwd2
  rw [if_neg h8]
  by_cases h9 : parts.headD "" = "mv"
  · rw [if_pos h9]; apply moveFile_cwd2
  rw [if_neg h9]
  by_cases h10 : parts.headD "" = "rm"
  · rw [if_pos h10]; apply removeFile_cwd2
  rw [if_neg h10]
  by_cases h11 : parts.headD "" = "os"
  · rw [if_pos h11]
  rw [if_neg h11]
  by_cases h12 : parts.headD "" = "hash"
  · rw [if_pos h12]; apply hashFile_cwd2
  rw [if_neg h12]
  by_cases h13 : parts.headD "" = "compress"
  · rw [if_pos h13]; apply compressFile_cwd2
  rw [if_neg h13]
  by_cases h14 : parts.headD "" = "decompress"
  · rw [if_pos h14]; apply decompressFile_cwd2
  rw [if_neg h14]

theorem dispatchCmd_arity (fs : FS) (host : Host) (cwd : String) (parts : List String)
    (hcmd :
      ((parts.headD "" ∈ (["cd", "cat", "add", "mkdir", "rm", "hash", "os"] : List String)) ∧
        parts.length < 2) ∨
      ((parts.headD "" ∈ (["rn", "cp", "mv", "compress", "decompress"] : List String)) ∧
        parts.length < 3)) :
    dispatchCmd fs host cwd parts = ⟨[Out.invalid], [], false, cwd⟩ := by
  rcases hcmd with ⟨hmem, hlen⟩ | ⟨hmem, hlen⟩
  · simp only [List.mem_cons, List.not_mem_nil, or_false] at hmem
    rcases hmem with h | h | h | h | h | h | h <;>
      (cases parts with
       | nil => exact absurd h (by decide)
       | cons x rest =>
         simp only [List.headD_cons] at h
         subst h
         cases rest with
         | nil => rfl
         | cons y r2 =>
           exfalso
           simp only [List.length_cons] at hlen
           omega)
  · simp only [List.mem_cons, List.not_mem_nil, or_false] at hmem
    rcases hmem with h | h | h | h | h <;>
      (cases parts with
       | nil => exact absurd h (by decide)
       | cons x rest =>
         simp only [List.headD_cons] at h
         subst h
         cases rest with
         | nil => rfl
         | cons y r2 =>
           cases r2 with
           | nil =>
             first
               | (show renameFile fs cwd y "" = _
                  rw [renameFile, if_pos (Or.inr rfl)])
               | (show copyFile fs cwd y "" = _
                  rw [copyFile, if_pos (Or.inr rfl)])
               | (show moveFile fs cwd y "" = _
                  rw [moveFile, if_pos (Or.inr rfl)])
               | (show compressFile fs cwd y "" = _
                  rw [compressFile, if_pos (Or.inr rfl)])
               | (show decompressFile fs cwd y "" = _
                  rw [decompressFile, if_pos (Or.inr rfl)])
           | cons z r3 =>
             exfalso
             simp only [List.length_cons] at hlen
             omega)

theorem runPrefixes_confined (cwd : String) (ops : List (FS × NavOp))
    (h : pathIsAbsolute cwd = true) :
    ((runPrefixes cwd ops).all fun c => strStartsWith c "/") = true := by
  induction ops generalizing cwd with
  | nil =>
    have h1 : strStartsWith cwd "/" = true := by rw [strStartsWith_slash]; exact h
    simp [runPrefixes, h1]
  | cons step rest ih =>
    rw [runPrefixes, List.all_cons]
    have h1 : strStartsWith cwd "/" = true := by rw [strStartsWith_slash]; exact h
    have h2 := ih (navStep step.1 cwd step.2) (navStep_abs step.1 cwd step.2 h)
    simp [h1, h2]

/-! ## The claims -/

/-- C1: Root-confinement invariant — for every sequence of navigate-up and
change-dir operations starting from a `currentDirectory` that is
`rootOfStart` (the root of the absolute start directory) or a descendant of
it, the `currentDirectory` after every prefix of the sequence is equal to
`rootOfStart` or a descendant of it (it starts with the root), and
navigating up when `currentDirectory` equals its filesystem root leaves it
unchanged. -/
theorem c1_root_confinement (home cwd0 : String) (ops : List (FS × NavOp))
    (hhome : pathIsAbsolute home = true)
    (h0 : strStartsWith cwd0 (parseRoot home) = true) :
    ((runPrefixes cwd0 ops).all fun c => strStartsWith c (parseRoot home)) = true
    ∧ ∀ c : String, c = parseRoot c → goUp c = c := by
  constructor
  · rw [parseRoot_abs home hhome]
    rw [parseRoot_abs home hhome, strStartsWith_slash] at h0
    exact runPrefixes_confined cwd0 ops h0
  · intro c hc
    simp only [goUp]
    rw [if_pos hc]

/-- Witness for C1: a concrete session starting under `/home/u` that
changes into a directory, walks up past the start directory to `/`, and
attempts to escape with `cd ../../../etc`. -/
theorem c1_root_confinement_witness :
    pathIsAbsolute "/home/u" = true
    ∧ strStartsWith "/home/u/docs" (parseRoot "/home/u") = true
    ∧ (((runPrefixes "/home/u/docs" opsC1).all
          fun c => strStartsWith c (parseRoot "/home/u")) = true
       ∧ ∀ c : String, c = parseRoot c → goUp c = c) :=
  ⟨by decide, by decide,
    c1_root_confinement "/home/u" "/home/u/docs" opsC1 (by decide) (by decide)⟩

/-- C2 counterexample: on a filesystem where nothing exists,
`rm nonexistent.txt` prints `Operation failed` (the stat probe throws and is
caught by the generic handler), not the `Invalid input` the claim
requires. -/
theorem c2_counterexample :
    (handleLine fsEmpty host0 "u" "/home/u" "rm nonexistent.txt").out =
      [Out.opFailed, Out.cwdLine "/home/u"]
    ∧ (handleLine fsEmpty host0 "u" "/home/u" "rm nonexistent.txt").out ≠
      [Out.invalid, Out.cwdLine "/home/u"] := by
  decide

/-- C2 (amended): when the path argument of change-dir, read-file, delete or
hash resolves to a nonexistent entry, the existence probe (`stat`) itself
throws, so each of these operations reports `Operation failed`, not
`Invalid input`; `Invalid input` is reserved for targets that exist with the
wrong kind and for missing arguments. -/
theorem c2_missing_target_operation_failed (fs : FS) (cwd arg : String)
    (h1 : arg ≠ "") (h2 : fs.stat (safeResolve cwd arg) = none) :
    (changeDir fs cwd arg).out = [Out.opFailed]
    ∧ (catFile fs cwd arg).out = [Out.opFailed]
    ∧ (removeFile fs cwd arg).out = [Out.opFailed]
    ∧ (hashFile fs cwd arg).out = [Out.opFailed] := by
  refine ⟨?_, ?_, ?_, ?_⟩ <;> simp [changeDir, catFile, removeFile, hashFile, h1, h2]

/-- Witness for C2 (amended) at `rm nonexistent.txt` on the empty
filesystem. -/
theorem c2_missing_target_operation_failed_witness :
    ("nonexistent.txt" : String) ≠ ""
    ∧ fsEmpty.stat (safeResolve "/home/u" "nonexistent.txt") = none
    ∧ ((changeDir fsEmpty "/home/u" "nonexistent.txt").out = [Out.opFailed]
       ∧ (catFile fsEmpty "/home/u" "nonexistent.txt").out = [Out.opFailed]
       ∧ (removeFile fsEmpty "/home/u" "nonexistent.txt").out = [Out.opFailed]
       ∧ (hashFile fsEmpty "/home/u" "nonexistent.txt").out = [Out.opFailed]) :=
  ⟨by decide, rfl,
    c2_missing_target_operation_failed fsEmpty "/home/u" "nonexistent.txt" (by decide) rfl⟩

/-- C3 (code bug): `cat` on a target that stats as a regular file but whose
read stream then errors prints `Operation failed` and destroys the stream,
so the `end` event the handler awaits never fires: the dispatched line hangs
and the cwd line is printed zero times, not exactly once as the uniform
reporting rule requires. -/
theorem c3_cat_stream_error_hangs :
    (handleLine fsCdSub host0 "u" "/home/u" "cat f.txt").out = [Out.opFailed]
    ∧ (handleLine fsCdSub host0 "u" "/home/u" "cat f.txt").hangs = true
    ∧ countCwd (handleLine fsCdSub host0 "u" "/home/u" "cat f.txt").out = 0 := by
  decide

/-- C4: Frame of the cwd state — a dispatched line whose command token is
neither `up` nor `cd` leaves `currentDirectory` unchanged, and `cd` leaves
it unchanged whenever the resolved target does not exist or is not a
directory. -/
theorem c4_cwd_frame (fs : FS) (host : Host) (uname cwd line : String) :
    ((tokenizeStr (strTrim line)).headD "" ∉ (["up", "cd"] : List String) →
      (handleLine fs host uname cwd line).cwd2 = cwd)
    ∧ ∀ (g : FS) (c arg : String),
        (g.stat (safeResolve c arg) = none ∨
          ∃ k, g.stat (safeResolve c arg) = some k ∧ k ≠ Kind.dir) →
        (changeDir g c arg).cwd2 = c := by
  constructor
  · intro hcmd
    simp only [handleLine]
    by_cases ht : strTrim line = ""
    · rw [if_pos ht]
    · rw [if_neg ht]
      by_cases hexit : strTrim line = ".exit" ∨ strTrim line = "exit"
      · rw [if_pos hexit]
      · rw [if_neg hexit]
        exact dispatchCmd_cwd2_frame fs host cwd (tokenizeStr (strTrim line)) hcmd
  · intro g c arg hmiss
    by_cases h1 : arg = ""
    · simp [changeDir, h1]
    · rcases hmiss with hmiss | ⟨k, hk, hkd⟩
      · simp [changeDir, h1, hmiss]
      · simp [changeDir, h1, hk, hkd]

/-- Witness for C4: `rm x` on the empty filesystem leaves the cwd unchanged,
and `cd sub` with a missing target leaves it unchanged. -/
theorem c4_cwd_frame_witness :
    ((tokenizeStr (strTrim "rm x")).headD "" ∉ (["up", "cd"] : List String))
    ∧ (handleLine fsEmpty host0 "u" "/home/u" "rm x").cwd2 = "/home/u"
    ∧ (fsEmpty.stat (safeResolve "/home/u" "sub") = none ∨
        ∃ k, fsEmpty.stat (safeResolve "/home/u" "sub") = some k ∧ k ≠ Kind.dir)
    ∧ (changeDir fsEmpty "/home/u" "sub").cwd2 = "/home/u" :=
  ⟨by decide,
    (c4_cwd_frame fsEmpty host0 "u" "/home/u" "rm x").1 (by decide),
    Or.inl rfl,
    (c4_cwd_frame fsEmpty host0 "u" "/home/u" "rm x").2 fsEmpty "/home/u" "sub" (Or.inl rfl)⟩

/-- C5: PathResolver contract — `safeResolve` agrees pointwise with the
resolver worded from the spec (`resolveSpec`: normalize an absolute argument
without joining, otherwise join onto the cwd and normalize, then clamp to
the boundary `root(cwd)` whenever the normalized result does not start with
it), and its result always starts with the filesystem root of the cwd, so it
never errors and never escapes the root. -/
theorem c5_resolver_contract (rawArg cwd : String) :
    safeResolve cwd rawArg = resolveSpec rawArg cwd
    ∧ strStartsWith (safeResolve cwd rawArg) (parseRoot cwd) = true := by
  constructor
  · show (if !strStartsWith (resolvedRaw cwd rawArg) (parseRoot cwd) then parseRoot cwd
          else resolvedRaw cwd rawArg) =
        (if strStartsWith (resolvedRaw cwd rawArg) (parseRoot cwd)
         then resolvedRaw cwd rawArg else parseRoot cwd)
    cases h : strStartsWith (resolvedRaw cwd rawArg) (parseRoot cwd) <;> simp
  · rw [safeResolve]
    cases h : strStartsWith (resolvedRaw cwd rawArg) (parseRoot cwd) with
    | false => simp [strStartsWith_refl]
    | true => simpa using h

/-- C6: Resolution idempotence — resolving the already-resolved result again
against the same absolute cwd returns the same path:
`safeResolve cwd (safeResolve cwd p) = safeResolve cwd p`. -/
theorem c6_resolution_idempotent (p cwd : String) (h : pathIsAbsolute cwd = true) :
    safeResolve cwd (safeResolve cwd p) = safeResolve cwd p := by
  obtain ⟨y, hy, hdata⟩ := safeResolve_normalize cwd p h
  have habs : pathIsAbsolute (safeResolve cwd p) = true := safeResolve_abs cwd p h
  rw [safeResolve_no_clamp cwd (safeResolve cwd p) h, resolvedRaw, if_pos habs]
  apply str_ext
  show normalizeC (safeResolve cwd p).data = (safeResolve cwd p).data
  rw [hdata, normalizeC_idem_abs y hy]

/-- Witness for C6 at the parent-escaping relative path `../../x` under
`/home/u`. -/
theorem c6_resolution_idempotent_witness :
    pathIsAbsolute "/home/u" = true
    ∧ safeResolve "/home/u" (safeResolve "/home/u" "../../x") =
        safeResolve "/home/u" "../../x" :=
  ⟨by decide, c6_resolution_idempotent "../../x" "/home/u" (by decide)⟩

/-- C7: Arity validation precedes I/O — a dispatched command whose handler
requires N positional arguments but that received fewer than N non-empty
tokens yields exactly the `Invalid input` line followed by the cwd line,
invokes no filesystem capability, and leaves the cwd unchanged. -/
theorem c7_arity_validation (fs : FS) (host : Host) (uname cwd line : String)
    (hcmd :
      (((tokenizeStr (strTrim line)).headD "" ∈
          (["cd", "cat", "add", "mkdir", "rm", "hash", "os"] : List String)) ∧
        (tokenizeStr (strTrim line)).length < 2) ∨
      (((tokenizeStr (strTrim line)).headD "" ∈
          (["rn", "cp", "mv", "compress", "decompress"] : List String)) ∧
        (tokenizeStr (strTrim line)).length < 3)) :
    (handleLine fs host uname cwd line).out = [Out.invalid, Out.cwdLine cwd]
    ∧ (handleLine fs host uname cwd line).effs = []
    ∧ (handleLine fs host uname cwd line).cwd2 = cwd := by
  have ht : ¬ strTrim line = "" := by
    intro hh
    rw [hh] at hcmd
    rcases hcmd with ⟨hmem, _⟩ | ⟨hmem, _⟩ <;> exact absurd hmem (by decide)
  have hexit : ¬ (strTrim line = ".exit" ∨ strTrim line = "exit") := by
    rintro (hh | hh) <;>
      (rw [hh] at hcmd
       rcases hcmd with ⟨hmem, _⟩ | ⟨hmem, _⟩ <;> exact absurd hmem (by decide))
  simp only [handleLine, if_neg ht, if_neg hexit]
  rw [dispatchCmd_arity fs host cwd (tokenizeStr (strTrim line)) hcmd]
  exact ⟨rfl, rfl, rfl⟩

/-- Witness for C7: `rn onlyname` supplies one of the two required
arguments. -/
theorem c7_arity_validation_witness :
    ((((tokenizeStr (strTrim "rn onlyname")).headD "" ∈
        (["cd", "cat", "add", "mkdir", "rm", "hash", "os"] : List String)) ∧
      (tokenizeStr (strTrim "rn onlyname")).length < 2) ∨
     (((tokenizeStr (strTrim "rn onlyname")).headD "" ∈
        (["rn", "cp", "mv", "compress", "decompress"] : List String)) ∧
      (tokenizeStr (strTrim "rn onlyname")).length < 3))
    ∧ ((handleLine fsEmpty host0 "u" "/home/u" "rn onlyname").out =
        [Out.invalid, Out.cwdLine "/home/u"]
       ∧ (handleLine fsEmpty host0 "u" "/home/u" "rn onlyname").effs = []
       ∧ (handleLine fsEmpty host0 "u" "/home/u" "rn onlyname").cwd2 = "/home/u") :=
  ⟨by decide, c7_arity_validation fsEmpty host0 "u" "/home/u" "rn onlyname" (by decide)⟩

/-- C8 counterexample: with new-name argument `a/b`, rename's destination
`/home/u/a/b` is not a direct child of the old path's parent `/home/u` (its
parent is `/home/u/a`), so "for every value of the new-name argument" is
false as stated. -/
theorem c8_counterexample :
    renameDest "/home/u" "f" "a/b" = "/home/u/a/b"
    ∧ pathDirname (renameSrc "/home/u" "f") = "/home/u"
    ∧ pathDirname (renameDest "/home/u" "f" "a/b") = "/home/u/a"
    ∧ pathDirname (renameDest "/home/u" "f" "a/b") ≠
        pathDirname (renameSrc "/home/u" "f") := by
  decide

/-- C8 (amended): rename's destination is always the new name joined onto
the resolved old path's parent directory, and when the new name is a single
clean segment (nonempty, no separator, not `.` or `..`) the destination is a
direct child of that parent: its parent directory is the old path's parent
and it properly extends it.  The rename capability is invoked exactly on
this source and destination. -/
theorem c8_rename_within_parent (fs : FS) (cwd oldP newName : String)
    (hcwd : pathIsAbsolute cwd = true) (hold : oldP ≠ "") (hnew : newName ≠ "")
    (hsep : '/' ∉ newName.data) (hdot : newName.data ≠ ['.'])
    (hdotdot : newName.data ≠ ['.', '.']) :
    renameDest cwd oldP newName = pathJoin (pathDirname (renameSrc cwd oldP)) newName
    ∧ pathDirname (renameDest cwd oldP newName) = pathDirname (renameSrc cwd oldP)
    ∧ renameDest cwd oldP newName ≠ pathDirname (renameSrc cwd oldP)
    ∧ (renameFile fs cwd oldP newName).effs =
        [Eff.renameE (renameSrc cwd oldP) (renameDest cwd oldP newName)] := by
  have hnm : segClean newName.data := ⟨data_ne_nil newName hnew, hdot, hdotdot, hsep⟩
  obtain ⟨y, hy, hdata⟩ := safeResolve_normalize cwd oldP hcwd
  obtain ⟨dsegs, hdclean, hdir⟩ := dirnameC_normalized y hy
  have hparent : (pathDirname (renameSrc cwd oldP)).data = '/' :: joinSlash dsegs := by
    show dirnameC (renameSrc cwd oldP).data = _
    rw [renameSrc, hdata, hdir]
  have hdest : (renameDest cwd oldP newName).data =
      '/' :: joinSlash (dsegs ++ [newName.data]) := by
    show joinC (pathDirname (renameSrc cwd oldP)).data newName.data = _
    rw [hparent]
    exact joinC_child dsegs hdclean newName.data hnm
  refine ⟨rfl, ?_, ?_, ?_⟩
  · apply str_ext
    show dirnameC (renameDest cwd oldP newName).data = _
    rw [hdest, hparent,
        show ('/' :: joinSlash (dsegs ++ [newName.data]) : Chars) =
          '/' :: (joinSlash (dsegs ++ [newName.data]) ++ []) by simp]
    exact dirnameC_absOf dsegs newName.data [] hnm hdclean (Or.inl rfl)
  · intro heq
    have h2 := congrArg String.data heq
    rw [hdest, hparent] at h2
    exact absOf_concat_ne dsegs newName.data hnm.1 h2
  · rw [renameFile, if_neg (fun hor => Or.elim hor hold hnew)]
    split <;> rfl

/-- Witness for C8 at `rn notes.txt draft.txt` under `/home/u`. -/
theorem c8_rename_within_parent_witness :
    pathIsAbsolute "/home/u" = true
    ∧ ("notes.txt" : String) ≠ "" ∧ ("draft.txt" : String) ≠ ""
    ∧ '/' ∉ ("draft.txt" : String).data
    ∧ ("draft.txt" : String).data ≠ ['.']
    ∧ ("draft.txt" : String).data ≠ ['.', '.']
    ∧ (renameDest "/home/u" "notes.txt" "draft.txt" =
        pathJoin (pathDirname (renameSrc "/home/u" "notes.txt")) "draft.txt"
       ∧ pathDirname (renameDest "/home/u" "notes.txt" "draft.txt") =
          pathDirname (renameSrc "/home/u" "notes.txt")
       ∧ renameDest "/home/u" "notes.txt" "draft.txt" ≠
          pathDirname (renameSrc "/home/u" "notes.txt")
       ∧ (renameFile fsEmpty "/home/u" "notes.txt" "draft.txt").effs =
          [Eff.renameE (renameSrc "/home/u" "notes.txt")
            (renameDest "/home/u" "notes.txt" "draft.txt")]) :=
  ⟨by decide, by decide, by decide, by decide, by decide, by decide,
    c8_rename_within_parent fsEmpty "/home/u" "notes.txt" "draft.txt" (by decide)
      (by decide) (by decide) (by decide) (by decide) (by decide)⟩

/-- C9 counterexample: a tab between the command and its argument is not a
token separator — `cd\tsub` parses as the single unknown command `cd\tsub`
and reports `Invalid input`, while `cd sub` changes the directory — so "any
whitespace separation produces the same command and arguments" is false as
stated. -/
theorem c9_counterexample :
    tokenizeStr "cd\tsub" = ["cd\tsub"]
    ∧ tokenizeStr "cd sub" = ["cd", "sub"]
    ∧ (handleLine fsCdSub host0 "u" "/home/u" "cd\tsub").out =
        [Out.invalid, Out.cwdLine "/home/u"]
    ∧ (handleLine fsCdSub host0 "u" "/home/u" "cd sub").cwd2 = "/home/u/sub" := by
  decide

/-- C9 (amended): parsing splits the line on space characters only (empty
tokens from consecutive spaces are filtered out), so inserting a space
anywhere splits the tokens there and runs of spaces collapse; the first
token is the command name and the remainder the arguments; other whitespace
such as a tab is not a separator. -/
theorem c9_tokenization :
    (∀ u w : String, tokenizeStr (u ++ " " ++ w) = tokenizeStr u ++ tokenizeStr w)
    ∧ tokenizeStr "cd\tsub" = ["cd\tsub"] := by
  constructor
  · intro u w
    rw [tokenizeStr, tokenizeStr, tokenizeStr]
    have hdata : (u ++ " " ++ w).data = u.data ++ ' ' :: w.data := by
      rw [strData_append, strData_append, List.append_assoc]
      rfl
    rw [hdata, splitOnC_append, List.filter_append, List.map_append]
  · decide

/-- C10 counterexample: at cwd `/` (reachable by navigating up), `add /tmp/x`
creates the entry exactly at `/tmp/x` — the cwd-joined target coincides with
the absolute location itself — so "never at the absolute location itself" is
false as stated. -/
theorem c10_counterexample :
    addFileTarget "/" "/tmp/x" = "/tmp/x"
    ∧ addFileTarget "/" "/tmp/x" = pathNormalize "/tmp/x"
    ∧ (addFile fsEmpty "/" "/tmp/x").effs = [Eff.openExclE "/tmp/x"] := by
  decide

/-- C10 (amended): `add` and `mkdir` do not pass their argument through
`safeResolve`; the invoked capability always targets `path.join(cwd, arg)`,
so an absolute argument is created at the cwd-joined location (e.g.
`add /tmp/x` under `/home/u` targets `/home/u/tmp/x`, which differs from the
absolute location `/tmp/x`); the two coincide only when joining happens to
reproduce the absolute path, e.g. when the cwd is the filesystem root. -/
theorem c10_add_mkdir_join_cwd (fs : FS) (cwd arg : String) (h : arg ≠ "") :
    (addFile fs cwd arg).effs = [Eff.openExclE (pathJoin cwd arg)]
    ∧ (makeDir fs cwd arg).effs = [Eff.mkdirE (pathJoin cwd arg)]
    ∧ addFileTarget "/home/u" "/tmp/x" = "/home/u/tmp/x"
    ∧ addFileTarget "/home/u" "/tmp/x" ≠ pathNormalize "/tmp/x" := by
  refine ⟨?_, ?_, by decide, by decide⟩
  · simp only [addFile, if_neg h]
    split <;> rfl
  · simp only [makeDir, if_neg h]
    split <;> rfl

/-- Witness for C10 at `add sub/note.txt` (any nonempty argument). -/
theorem c10_add_mkdir_join_cwd_witness :
    ("sub/note.txt" : String) ≠ ""
    ∧ ((addFile fsEmpty "/home/u" "sub/note.txt").effs =
        [Eff.openExclE (pathJoin "/home/u" "sub/note.txt")]
       ∧ (makeDir fsEmpty "/home/u" "sub/note.txt").effs =
        [Eff.mkdirE (pathJoin "/home/u" "sub/note.txt")]
       ∧ addFileTarget "/home/u" "/tmp/x" = "/home/u/tmp/x"
       ∧ addFileTarget "/home/u" "/tmp/x" ≠ pathNormalize "/tmp/x") :=
  ⟨by decide, c10_add_mkdir_join_cwd fsEmpty "/home/u" "sub/note.txt" (by decide)⟩
